import Mathlib

/-!
Verification of the circular-interval type of `src/s2/s1interval.cc`.

Angles are modelled as exact rationals.  The constant `M_PI` never enters the
control flow of the source except through ordered-field arithmetic on the
endpoints, so it is kept symbolic: every operation takes a parameter `pi`,
and the theorems assume `0 < pi`.  The real program is the instance at the
double value of π; exact arithmetic stands in for floating point.
-/

/-- An interval on the unit circle: a pair of endpoint angles `lo`, `hi`.
The four semantic shapes (empty, full, normal, inverted) are all encoded in
this one representation, as in the source. -/
structure S1Interval where
  lo : ℚ
  hi : ℚ
deriving DecidableEq, Repr

namespace S1Interval

/-- Modelled from the spec: the canonical empty sentinel `lo = π, hi = -π`
(the header defining `Empty()` is not part of the supplied source). -/
def Empty (pi : ℚ) : S1Interval := ⟨pi, -pi⟩

/-- Modelled from the spec: the canonical full sentinel `lo = -π, hi = π`
(the header defining `Full()` is not part of the supplied source). -/
def Full (pi : ℚ) : S1Interval := ⟨-pi, pi⟩

/-- Modelled from the spec: "inverted" is the derived property `lo > hi`
(the header accessor is not part of the supplied source). -/
def is_inverted (I : S1Interval) : Bool := decide (I.lo > I.hi)

/-- Modelled from the spec: an interval is empty iff it is the empty
sentinel `{π, -π}` (the header accessor is not part of the supplied source). -/
def is_empty (pi : ℚ) (I : S1Interval) : Bool :=
  decide (I.lo = pi ∧ I.hi = -pi)

/-- Modelled from the spec: an interval is full iff it is the full sentinel
`{-π, π}` (the header accessor is not part of the supplied source). -/
def is_full (pi : ℚ) (I : S1Interval) : Bool :=
  decide (I.lo = -pi ∧ I.hi = pi)

/-- Modelled from the spec: a valid instance has both endpoints in
`[-π, π]`, and the validated constructor canonicalizes `-π` to `π`, so a
stored endpoint equal to `-π` occurs only in the full sentinel pattern
(`lo = -π` forces `hi = π`; `hi = -π` forces `lo = π`, the empty sentinel). -/
def is_valid (pi : ℚ) (I : S1Interval) : Bool :=
  decide (|I.lo| ≤ pi ∧ |I.hi| ≤ pi ∧
    (I.lo = -pi → I.hi = pi) ∧ (I.hi = -pi → I.lo = pi))

/-- Modelled from the spec: the validated constructor, which canonicalizes
an endpoint value of `-π` to `π` (keeping the full sentinel intact) before
storing.  The trusted (`ARGS_CHECKED`) constructor is the raw pair. -/
def mk' (pi lo hi : ℚ) : S1Interval :=
  let lo1 := if lo = -pi ∧ hi ≠ pi then pi else lo
  let hi1 := if hi = -pi ∧ lo1 ≠ pi then pi else hi
  ⟨lo1, hi1⟩

/-- Mirrors `S1Interval::GetCenter` (s1interval.cc:34-39). -/
def GetCenter (pi : ℚ) (I : S1Interval) : ℚ :=
  let center := (1/2 : ℚ) * (I.lo + I.hi)
  if is_inverted I = false then center
  else if center ≤ 0 then center + pi else center - pi

/-- Mirrors `S1Interval::GetLength` (s1interval.cc:41-47). -/
def GetLength (pi : ℚ) (I : S1Interval) : ℚ :=
  let length := I.hi - I.lo
  if length ≥ 0 then length
  else
    let length2 := length + 2 * pi
    if length2 > 0 then length2 else -1

/-- Mirrors `S1Interval::Complement` (s1interval.cc:49-52): a singleton's
complement is Full, otherwise the endpoints are swapped (via the trusted
constructor). -/
def Complement (pi : ℚ) (I : S1Interval) : S1Interval :=
  if I.lo = I.hi then Full pi else ⟨I.hi, I.lo⟩

/-- Mirrors `S1Interval::GetComplementCenter` (s1interval.cc:54-60). -/
def GetComplementCenter (pi : ℚ) (I : S1Interval) : ℚ :=
  if I.lo ≠ I.hi then GetCenter pi (Complement pi I)
  else if I.hi ≤ 0 then I.hi + pi else I.hi - pi

/-- Mirrors `S1Interval::FastContains` (s1interval.cc:62-68). -/
def FastContains (pi : ℚ) (I : S1Interval) (p : ℚ) : Bool :=
  if is_inverted I then
    (decide (p ≥ I.lo) || decide (p ≤ I.hi)) && !is_empty pi I
  else
    decide (p ≥ I.lo) && decide (p ≤ I.hi)

/-- Mirrors `S1Interval::Contains(double)` (s1interval.cc:70-75):
canonicalizes `-π` to `π`, then tests `FastContains`. -/
def Contains (pi : ℚ) (I : S1Interval) (p : ℚ) : Bool :=
  let p := if p = -pi then pi else p
  FastContains pi I p

/-- Mirrors `S1Interval::Contains(const S1Interval&)` (s1interval.cc:89-100). -/
def ContainsInterval (pi : ℚ) (I y : S1Interval) : Bool :=
  if is_inverted I then
    if is_inverted y then decide (y.lo ≥ I.lo) && decide (y.hi ≤ I.hi)
    else (decide (y.lo ≥ I.lo) || decide (y.hi ≤ I.hi)) && !is_empty pi I
  else
    if is_inverted y then is_full pi I || is_empty pi y
    else decide (y.lo ≥ I.lo) && decide (y.hi ≤ I.hi)

/-- Mirrors `S1Interval::Intersects` (s1interval.cc:112-121). -/
def Intersects (pi : ℚ) (I y : S1Interval) : Bool :=
  if is_empty pi I || is_empty pi y then false
  else if is_inverted I then
    is_inverted y || decide (y.lo ≤ I.hi) || decide (y.hi ≥ I.lo)
  else
    if is_inverted y then decide (y.lo ≤ I.hi) || decide (y.hi ≥ I.lo)
    else decide (y.lo ≤ I.hi) && decide (y.hi ≥ I.lo)

/-- Mirrors the file-local helper `PositiveDistance` (s1interval.cc:133-143):
the forward distance from `a` to `b` in `[0, 2π)`, computed by the
two-branch subtraction of the source. -/
def PositiveDistance (pi a b : ℚ) : ℚ :=
  let d := b - a
  if d ≥ 0 then d else (b + pi) - (a - pi)

/-- Mirrors `S1Interval::GetDirectedHausdorffDistance` (s1interval.cc:145-162).
The two inner interval constructions use the validated constructor `mk'`,
as in the source. -/
def GetDirectedHausdorffDistance (pi : ℚ) (I y : S1Interval) : ℚ :=
  if ContainsInterval pi y I then 0
  else if is_empty pi y then pi
  else
    let c := GetComplementCenter pi y
    if Contains pi I c then PositiveDistance pi y.hi c
    else
      let hi_hi :=
        if Contains pi (mk' pi y.hi c) I.hi then PositiveDistance pi y.hi I.hi
        else 0
      let lo_lo :=
        if Contains pi (mk' pi c y.lo) I.lo then PositiveDistance pi I.lo y.lo
        else 0
      max hi_hi lo_lo

/-- Mirrors `S1Interval::AddPoint` (s1interval.cc:164-183), written as a
function returning the updated interval. -/
def AddPoint (pi : ℚ) (I : S1Interval) (p : ℚ) : S1Interval :=
  let p := if p = -pi then pi else p
  if FastContains pi I p then I
  else if is_empty pi I then ⟨p, p⟩
  else
    let dlo := PositiveDistance pi p I.lo
    let dhi := PositiveDistance pi I.hi p
    if dlo < dhi then ⟨p, I.hi⟩ else ⟨I.lo, p⟩

/-- Mirrors `S1Interval::Project` (s1interval.cc:185-194). -/
def Project (pi : ℚ) (I : S1Interval) (p : ℚ) : ℚ :=
  let p := if p = -pi then pi else p
  if FastContains pi I p then p
  else
    let dlo := PositiveDistance pi p I.lo
    let dhi := PositiveDistance pi I.hi p
    if dlo < dhi then I.lo else I.hi

/-- Mirrors `S1Interval::Union` (s1interval.cc:226-255).  All interval
constructions here use the trusted (`ARGS_CHECKED`) constructor, i.e. the
raw pair, as in the source. -/
def Union (pi : ℚ) (I y : S1Interval) : S1Interval :=
  if is_empty pi y then I
  else if FastContains pi I y.lo then
    if FastContains pi I y.hi then
      if ContainsInterval pi I y then I else Full pi
    else ⟨I.lo, y.hi⟩
  else if FastContains pi I y.hi then ⟨y.lo, I.hi⟩
  else if is_empty pi I || FastContains pi y I.lo then y
  else
    let dlo := PositiveDistance pi y.hi I.lo
    let dhi := PositiveDistance pi I.hi y.lo
    if dlo < dhi then ⟨y.lo, I.hi⟩ else ⟨I.lo, y.hi⟩

/-- Mirrors `S1Interval::Intersection` (s1interval.cc:257-281). -/
def Intersection (pi : ℚ) (I y : S1Interval) : S1Interval :=
  if is_empty pi y then Empty pi
  else if FastContains pi I y.lo then
    if FastContains pi I y.hi then
      if GetLength pi y < GetLength pi I then y else I
    else ⟨y.lo, I.hi⟩
  else if FastContains pi I y.hi then ⟨I.lo, y.hi⟩
  else if FastContains pi y I.lo then I
  else Empty pi

/-! ### Basic lemmas about the representation predicates -/

lemma is_inverted_iff (I : S1Interval) : is_inverted I = true ↔ I.hi < I.lo := by
  simp [is_inverted]

lemma is_inverted_false_iff (I : S1Interval) :
    is_inverted I = false ↔ I.lo ≤ I.hi := by
  simp [is_inverted]

lemma is_empty_iff (pi : ℚ) (I : S1Interval) :
    is_empty pi I = true ↔ I.lo = pi ∧ I.hi = -pi := by
  simp [is_empty]

lemma is_empty_false_iff (pi : ℚ) (I : S1Interval) :
    is_empty pi I = false ↔ ¬(I.lo = pi ∧ I.hi = -pi) := by
  simp [is_empty]

lemma is_full_iff (pi : ℚ) (I : S1Interval) :
    is_full pi I = true ↔ I.lo = -pi ∧ I.hi = pi := by
  simp [is_full]

lemma is_valid_iff (pi : ℚ) (I : S1Interval) :
    is_valid pi I = true ↔
      -pi ≤ I.lo ∧ I.lo ≤ pi ∧ -pi ≤ I.hi ∧ I.hi ≤ pi ∧
      (I.lo = -pi → I.hi = pi) ∧ (I.hi = -pi → I.lo = pi) := by
  simp only [is_valid, decide_eq_true_eq, abs_le]
  tauto

lemma eq_empty_of_is_empty {pi : ℚ} {I : S1Interval}
    (h : is_empty pi I = true) : I = Empty pi := by
  obtain ⟨Ilo, Ihi⟩ := I
  rw [is_empty_iff] at h
  simp only [Empty, mk.injEq]
  exact h

/-- Any valid interval contains the empty sentinel. -/
lemma containsInterval_empty (pi : ℚ) (hpi : 0 < pi) (y : S1Interval)
    (hy : is_valid pi y = true) : ContainsInterval pi y (Empty pi) = true := by
  rw [is_valid_iff] at hy
  obtain ⟨h1, h2, h3, h4, -, -⟩ := hy
  have hE : is_inverted (Empty pi) = true := by
    rw [is_inverted_iff]; simp [Empty]; linarith
  by_cases hyi : is_inverted y = true
  · simp only [ContainsInterval, hyi, hE, if_true]
    simp only [Empty, Bool.and_eq_true, decide_eq_true_eq]
    constructor <;> [linarith; linarith]
  · rw [Bool.not_eq_true] at hyi
    simp only [ContainsInterval, hyi, hE, Bool.false_eq_true, if_false, if_true]
    have : is_empty pi (Empty pi) = true := by rw [is_empty_iff]; simp [Empty]
    simp [this]

/-- The empty sentinel contains a valid interval only if that interval is
itself the empty sentinel. -/
lemma eq_empty_of_empty_contains (pi : ℚ) (hpi : 0 < pi) (J : S1Interval)
    (hJ : is_valid pi J = true)
    (h : ContainsInterval pi (Empty pi) J = true) : J = Empty pi := by
  rw [is_valid_iff] at hJ
  obtain ⟨h1, h2, h3, h4, -, -⟩ := hJ
  simp only [Empty] at h ⊢
  have hE : is_inverted (⟨pi, -pi⟩ : S1Interval) = true := by
    rw [is_inverted_iff]; simp only; linarith
  by_cases hJi : is_inverted J = true
  · simp only [ContainsInterval, hE, hJi, if_true, Bool.and_eq_true,
      decide_eq_true_eq] at h
    obtain ⟨ha, hb⟩ := h
    obtain ⟨Jlo, Jhi⟩ := J
    simp only [mk.injEq]
    simp only at ha hb h2 h3
    constructor <;> linarith
  · rw [Bool.not_eq_true] at hJi
    have hEe : is_empty pi (⟨pi, -pi⟩ : S1Interval) = true := by
      rw [is_empty_iff]
      exact ⟨rfl, rfl⟩
    simp only [ContainsInterval, hE, hJi, if_true, Bool.false_eq_true, if_false,
      hEe, Bool.not_true, Bool.and_false, Bool.false_eq_true] at h

/-! ### C4, C5, C6: direct branch properties -/

/-- C4: when this interval (fast-)contains both endpoints of the non-empty
interval `y`, `Intersection` returns whichever of the two original intervals
is shorter: `y` when `y`'s length is strictly less, else this interval. -/
theorem c4_intersection_both_endpoints (pi : ℚ) (I y : S1Interval)
    (hI : is_valid pi I = true) (hy : is_valid pi y = true)
    (hne : is_empty pi y = false)
    (h1 : FastContains pi I y.lo = true) (h2 : FastContains pi I y.hi = true) :
    Intersection pi I y =
      if GetLength pi y < GetLength pi I then y else I := by
  simp [Intersection, hne, h1, h2]

/-- Witness for C4 at `pi = 4`, `I = [0, 2]`, `y = [0, 1]` (so `y` is the
shorter interval and is returned). -/
theorem c4_witness :
    Intersection 4 ⟨0, 2⟩ ⟨0, 1⟩ = (⟨0, 1⟩ : S1Interval) := by
  have h := c4_intersection_both_endpoints 4 ⟨0, 2⟩ ⟨0, 1⟩ (by decide) (by decide)
    (by decide) (by decide) (by decide)
  rw [h]
  norm_num [GetLength]

/-- C5: `GetLength` is `hi - lo` on non-inverted intervals, `hi - lo + 2π`
on non-empty inverted intervals, `-1` on the empty interval, `0` on a
singleton, and `2π` on the full interval. -/
theorem c5_getlength (pi : ℚ) (hpi : 0 < pi) (I : S1Interval)
    (hI : is_valid pi I = true) :
    (is_inverted I = false → GetLength pi I = I.hi - I.lo) ∧
    (is_inverted I = true → is_empty pi I = false →
      GetLength pi I = I.hi - I.lo + 2 * pi) ∧
    (is_empty pi I = true → GetLength pi I = -1) ∧
    (I.lo = I.hi → GetLength pi I = 0) ∧
    (is_full pi I = true → GetLength pi I = 2 * pi) := by
  rw [is_valid_iff] at hI
  obtain ⟨h1, h2, h3, h4, h5, h6⟩ := hI
  refine ⟨?_, ?_, ?_, ?_, ?_⟩
  · intro h
    rw [is_inverted_false_iff] at h
    rw [GetLength, if_pos (by linarith)]
  · intro h hne
    rw [is_inverted_iff] at h
    rw [is_empty_false_iff] at hne
    have hpos : I.hi - I.lo + 2 * pi > 0 := by
      rcases eq_or_lt_of_le h3 with heq | hlt
      · exact absurd ⟨h6 heq.symm, heq.symm⟩ hne
      · linarith
    rw [GetLength, if_neg (by linarith), if_pos hpos]
  · intro h
    rw [is_empty_iff] at h
    obtain ⟨ha, hb⟩ := h
    rw [GetLength, ha, hb, if_neg (by linarith), if_neg (by linarith)]
  · intro h
    rw [GetLength, h, if_pos (by linarith)]
    ring
  · intro h
    rw [is_full_iff] at h
    obtain ⟨ha, hb⟩ := h
    rw [GetLength, ha, hb, if_pos (by linarith)]
    ring

/-- Witness for C5 at `pi = 4` and the inverted interval `{3, -3}`
(length `-6 + 8 = 2`). -/
theorem c5_witness : GetLength 4 ⟨3, -3⟩ = 2 := by
  have h := (c5_getlength 4 (by norm_num) ⟨3, -3⟩ (by decide)).2.1
    (by decide) (by decide)
  rw [h]
  norm_num

/-- C6: the complement of a singleton is Full; otherwise `Complement` swaps
the endpoints; in particular the complement of Full is Empty and the
complement of Empty is Full. -/
theorem c6_complement (pi : ℚ) (hpi : 0 < pi) (I : S1Interval) :
    (I.lo = I.hi → Complement pi I = Full pi) ∧
    (I.lo ≠ I.hi → Complement pi I = ⟨I.hi, I.lo⟩) ∧
    Complement pi (Full pi) = Empty pi ∧
    Complement pi (Empty pi) = Full pi := by
  have hne : (-pi : ℚ) ≠ pi := by intro h; linarith
  have hne' : (pi : ℚ) ≠ -pi := by intro h; linarith
  refine ⟨fun h => by rw [Complement, if_pos h],
          fun h => by rw [Complement, if_neg h], ?_, ?_⟩
  · rw [Complement]
    simp only [Full, Empty]
    rw [if_neg hne]
  · rw [Complement]
    simp only [Full, Empty]
    rw [if_neg hne']

/-- Witness for C6 at `pi = 4`: the singleton `{1, 1}` has complement Full. -/
theorem c6_witness : Complement 4 ⟨1, 1⟩ = Full 4 := by
  exact (c6_complement 4 (by norm_num) ⟨1, 1⟩).1 rfl

/-! ### C7: AddPoint never promotes a non-full interval to Full -/

/-- C7: for a valid non-full interval and a point with `|p| ≤ π`,
`AddPoint` never yields the full interval. -/
theorem c7_addpoint_not_full (pi : ℚ) (hpi : 0 < pi) (I : S1Interval)
    (hI : is_valid pi I = true) (hnf : is_full pi I = false)
    (p : ℚ) (hp : |p| ≤ pi) :
    is_full pi (AddPoint pi I p) = false := by
  rw [is_valid_iff] at hI
  obtain ⟨h1, h2, h3, h4, h5, h6⟩ := hI
  rw [Bool.eq_false_iff, Ne, is_full_iff] at hnf
  rw [Bool.eq_false_iff, Ne, is_full_iff]
  simp only [AddPoint]
  set q := if p = -pi then pi else p with hqdef
  have hq : q ≠ -pi := by
    rw [hqdef]
    split_ifs with h
    · intro hc; linarith
    · exact h
  by_cases hfc : FastContains pi I q = true
  · rw [if_pos hfc]; exact hnf
  · rw [if_neg hfc]
    by_cases hemp : is_empty pi I = true
    · rw [if_pos hemp]
      rintro ⟨ha, -⟩
      exact hq ha
    · rw [if_neg hemp]
      by_cases hd : PositiveDistance pi q I.lo < PositiveDistance pi I.hi q
      · rw [if_pos hd]
        rintro ⟨ha, -⟩
        exact hq ha
      · rw [if_neg hd]
        rintro ⟨ha, -⟩
        exact hnf ⟨ha, h5 ha⟩

/-- Witness for C7 at `pi = 4`, `I = [0, 1]`, `p = 3`. -/
theorem c7_witness : is_full 4 (AddPoint 4 ⟨0, 1⟩ 3) = false :=
  c7_addpoint_not_full 4 (by norm_num) ⟨0, 1⟩ (by decide) (by decide) 3
    (by norm_num)

/-! ### C9: commutativity of Intersects -/

/-- C9: `Intersects` is commutative. -/
theorem c9_intersects_comm (pi : ℚ) (x y : S1Interval) :
    Intersects pi x y = Intersects pi y x := by
  simp only [Intersects]
  by_cases hex : is_empty pi x = true <;> by_cases hey : is_empty pi y = true <;>
    simp only [hex, hey, Bool.not_eq_true] at * <;>
    simp [hex, hey] <;>
    by_cases hix : is_inverted x = true <;> by_cases hiy : is_inverted y = true <;>
      simp [hix, hiy, ge_iff_le, Bool.or_comm, Bool.and_comm]

/-! ### C10: containment of and by the empty interval -/

/-- C10: every valid interval contains the empty interval, and the empty
interval contains a valid interval only if it is the empty sentinel. -/
theorem c10_contains_empty (pi : ℚ) (hpi : 0 < pi) :
    (∀ I : S1Interval, is_valid pi I = true →
      ContainsInterval pi I (Empty pi) = true) ∧
    (∀ J : S1Interval, is_valid pi J = true →
      ContainsInterval pi (Empty pi) J = true → J = Empty pi) :=
  ⟨fun I hI => containsInterval_empty pi hpi I hI,
   fun J hJ h => eq_empty_of_empty_contains pi hpi J hJ h⟩

/-- Witness for C10 at `pi = 4`. -/
theorem c10_witness :
    ContainsInterval 4 ⟨0, 1⟩ (Empty 4) = true ∧
    (⟨4, -4⟩ : S1Interval) = Empty 4 :=
  ⟨(c10_contains_empty 4 (by norm_num)).1 ⟨0, 1⟩ (by decide),
   (c10_contains_empty 4 (by norm_num)).2 ⟨4, -4⟩ (by decide) (by decide)⟩

/-! ### C2: directed Hausdorff distance contract -/

/-- C2: the directed Hausdorff distance is `0` whenever `y` contains this
interval (in particular whenever this interval is empty), and `π` whenever
`y` is empty while this interval is not. -/
theorem c2_hausdorff (pi : ℚ) (hpi : 0 < pi) (I y : S1Interval)
    (hI : is_valid pi I = true) (hy : is_valid pi y = true) :
    (ContainsInterval pi y I = true →
      GetDirectedHausdorffDistance pi I y = 0) ∧
    (is_empty pi I = true → GetDirectedHausdorffDistance pi I y = 0) ∧
    (is_empty pi y = true → is_empty pi I = false →
      GetDirectedHausdorffDistance pi I y = pi) := by
  refine ⟨?_, ?_, ?_⟩
  · intro h
    simp [GetDirectedHausdorffDistance, h]
  · intro h
    have hc : ContainsInterval pi y I = true := by
      rw [eq_empty_of_is_empty h]
      exact containsInterval_empty pi hpi y hy
    simp [GetDirectedHausdorffDistance, hc]
  · intro hys hIne
    have hc : ContainsInterval pi y I = false := by
      rw [Bool.eq_false_iff, Ne]
      intro hcon
      rw [eq_empty_of_is_empty hys] at hcon
      have hIE : I = Empty pi := eq_empty_of_empty_contains pi hpi I hI hcon
      rw [hIE, is_empty_false_iff] at hIne
      exact hIne ⟨rfl, rfl⟩
    simp [GetDirectedHausdorffDistance, hc, hys]

/-- Witness for C2 at `pi = 4`: distance from `[1, 2]` to the empty
interval is `π`. -/
theorem c2_witness : GetDirectedHausdorffDistance 4 ⟨1, 2⟩ (Empty 4) = 4 :=
  (c2_hausdorff 4 (by norm_num) ⟨1, 2⟩ (Empty 4) (by decide)
    (by decide)).2.2 (by decide) (by decide)

/-! ### C8: Project round-trip (corrected at the seam) -/

/-- C8 as stated is false at the seam point `p = -π`: with `pi = 4` playing
the role of π, the valid non-empty interval `[3, 4]` contains `-4`
(canonicalized to `4`), but `Project` returns the canonicalized value `4`,
not `-4`. -/
theorem c8_counterexample :
    is_valid 4 ⟨3, 4⟩ = true ∧ is_empty 4 ⟨3, 4⟩ = false ∧
    |(-4 : ℚ)| ≤ 4 ∧ Contains 4 ⟨3, 4⟩ (-4) = true ∧
    Project 4 ⟨3, 4⟩ (-4) = 4 ∧ (4 : ℚ) ≠ -4 := by
  refine ⟨by decide, by decide, by norm_num, by decide, by decide, by norm_num⟩

/-- C8 amended: for a non-empty valid interval and a point `p` with
`|p| ≤ π` other than the seam representative `-π`, containment implies
`Project` returns `p` itself. -/
theorem c8_project_roundtrip (pi : ℚ) (I : S1Interval)
    (hne : is_empty pi I = false) (hv : is_valid pi I = true)
    (p : ℚ) (hp : |p| ≤ pi) (hpn : p ≠ -pi)
    (hc : Contains pi I p = true) : Project pi I p = p := by
  simp only [Contains, if_neg hpn] at hc
  simp only [Project, if_neg hpn, hc, if_true]

/-- Witness for the amended C8 at `pi = 4`, `I = [0, 2]`, `p = 1`. -/
theorem c8_witness : Project 4 ⟨0, 2⟩ 1 = 1 :=
  c8_project_roundtrip 4 ⟨0, 2⟩ (by decide) (by decide) 1 (by norm_num)
    (by norm_num) (by decide)

/-! ### C1: Union with exactly one endpoint contained (corrected) -/

lemma contains_canon {pi p : ℚ} (I : S1Interval) (hp : p ≠ -pi) :
    Contains pi I p = FastContains pi I p := by
  simp only [Contains, if_neg hp]

lemma contains_neg_pi (pi : ℚ) (I : S1Interval) :
    Contains pi I (-pi) = FastContains pi I pi := by
  simp [Contains]

/-- If `Contains` distinguishes the two endpoints of a valid interval, then
neither endpoint is the seam representative `-π`. -/
lemma endpoints_ne_neg_pi {pi : ℚ} (hpi : 0 < pi) {y : S1Interval}
    (hy : is_valid pi y = true) (I : S1Interval)
    (hne : Contains pi I y.lo ≠ Contains pi I y.hi) :
    y.lo ≠ -pi ∧ y.hi ≠ -pi := by
  rw [is_valid_iff] at hy
  obtain ⟨-, -, -, -, h5, h6⟩ := hy
  have hpne : pi ≠ -pi := by intro h; linarith
  constructor
  · intro h
    apply hne
    rw [h5 h, h, contains_neg_pi, contains_canon I hpne]
  · intro h
    apply hne
    rw [h6 h, h, contains_neg_pi, contains_canon I hpne]

/-- C1 as stated is false: with `pi = 4` playing the role of π, for
`I = [0, 2]` and `other = [-1, 1]` only `other.hi` is contained, yet
`Union` returns `{other.lo, this.hi} = [-1, 2]`, not
`{this.lo, other.hi} = [0, 1]`. -/
theorem c1_counterexample :
    is_valid 4 ⟨0, 2⟩ = true ∧ is_valid 4 ⟨-1, 1⟩ = true ∧
    Contains 4 ⟨0, 2⟩ (1 : ℚ) = true ∧ Contains 4 ⟨0, 2⟩ (-1 : ℚ) = false ∧
    Union 4 ⟨0, 2⟩ ⟨-1, 1⟩ = ⟨-1, 2⟩ ∧ (⟨-1, 2⟩ : S1Interval) ≠ ⟨0, 1⟩ := by
  refine ⟨by decide, by decide, by decide, by decide, by decide, by decide⟩

/-- C1 amended: if only `other.lo` is contained, `Union` extends to
`{this.lo, other.hi}`; if only `other.hi` is contained, `Union` extends to
`{other.lo, this.hi}` (the two output cases of the claim, swapped). -/
theorem c1_union_one_endpoint (pi : ℚ) (hpi : 0 < pi) (I y : S1Interval)
    (hI : is_valid pi I = true) (hy : is_valid pi y = true) :
    (Contains pi I y.lo = true → Contains pi I y.hi = false →
      Union pi I y = ⟨I.lo, y.hi⟩) ∧
    (Contains pi I y.hi = true → Contains pi I y.lo = false →
      Union pi I y = ⟨y.lo, I.hi⟩) := by
  constructor
  · intro h1 h2
    obtain ⟨ha, hb⟩ := endpoints_ne_neg_pi hpi hy I (by rw [h1, h2]; decide)
    have hyne : is_empty pi y = false := by
      rw [is_empty_false_iff]
      rintro ⟨-, hb'⟩
      exact hb hb'
    rw [contains_canon I ha] at h1
    rw [contains_canon I hb] at h2
    simp [Union, hyne, h1, h2]
  · intro h1 h2
    obtain ⟨ha, hb⟩ := endpoints_ne_neg_pi hpi hy I (by rw [h1, h2]; decide)
    have hyne : is_empty pi y = false := by
      rw [is_empty_false_iff]
      rintro ⟨-, hb'⟩
      exact hb hb'
    rw [contains_canon I hb] at h1
    rw [contains_canon I ha] at h2
    simp [Union, hyne, h1, h2]

/-- Witness for the amended C1 at `pi = 4`, `I = [0, 2]`: with
`other = [1, 3]` (only `other.lo` contained) the union is `[0, 3]`; with
`other = [-1, 1]` (only `other.hi` contained) the union is `[-1, 2]`. -/
theorem c1_witness :
    Union 4 ⟨0, 2⟩ ⟨1, 3⟩ = ⟨0, 3⟩ ∧ Union 4 ⟨0, 2⟩ ⟨-1, 1⟩ = ⟨-1, 2⟩ :=
  ⟨(c1_union_one_endpoint 4 (by norm_num) ⟨0, 2⟩ ⟨1, 3⟩ (by decide)
      (by decide)).1 (by decide) (by decide),
   (c1_union_one_endpoint 4 (by norm_num) ⟨0, 2⟩ ⟨-1, 1⟩ (by decide)
      (by decide)).2 (by decide) (by decide)⟩

/-! ### C3: Union when this interval contains neither endpoint of the other -/

lemma fc_iff_ninv {pi : ℚ} {I : S1Interval} (h : I.lo ≤ I.hi) (p : ℚ) :
    FastContains pi I p = true ↔ I.lo ≤ p ∧ p ≤ I.hi := by
  have hi : is_inverted I = false := by rw [is_inverted_false_iff]; exact h
  simp [FastContains, hi, ge_iff_le]

lemma fc_iff_inv {pi : ℚ} {I : S1Interval} (h : I.hi < I.lo)
    (hne : is_empty pi I = false) (p : ℚ) :
    FastContains pi I p = true ↔ I.lo ≤ p ∨ p ≤ I.hi := by
  have hi : is_inverted I = true := by rw [is_inverted_iff]; exact h
  simp [FastContains, hi, hne, ge_iff_le]

/-- For a valid interval, failure of the canonicalizing `Contains` implies
failure of the raw `FastContains` at the same (uncanonicalized) point. -/
lemma fastContains_false (pi : ℚ) (hpi : 0 < pi) (I : S1Interval)
    (hI : is_valid pi I = true) (p : ℚ) (h : Contains pi I p = false) :
    FastContains pi I p = false := by
  by_cases hp : p = -pi
  · subst hp
    rw [contains_neg_pi] at h
    rw [is_valid_iff] at hI
    obtain ⟨h1, h2, h3, h4, h5, h6⟩ := hI
    rw [Bool.eq_false_iff, Ne] at h ⊢
    intro hcon
    apply h
    by_cases hinv : is_inverted I = true
    · have hI' := (is_inverted_iff I).mp hinv
      by_cases hIe : is_empty pi I = true
      · simp [FastContains, hinv, hIe] at hcon
      · simp only [Bool.not_eq_true] at hIe
        rw [fc_iff_inv hI' hIe]
        exact Or.inl h2
    · simp only [Bool.not_eq_true] at hinv
      have hI' := (is_inverted_false_iff I).mp hinv
      rw [fc_iff_ninv hI'] at hcon
      have hlo' : I.lo = -pi := le_antisymm hcon.1 h1
      rw [fc_iff_ninv hI']
      exact ⟨h2, le_of_eq (h5 hlo').symm⟩
  · rw [contains_canon I hp] at h
    exact h

/-- C3: when this interval contains neither endpoint of the non-empty
interval `y`, either `y` wholly contains this interval (or this is empty)
and `Union` returns `y`, or the two arcs are disjoint and `Union` returns
the bridging union chosen by comparing the two positive circular distances
between the candidate endpoint pairs. -/
theorem c3_union_neither_endpoint (pi : ℚ) (hpi : 0 < pi) (I y : S1Interval)
    (hI : is_valid pi I = true) (hy : is_valid pi y = true)
    (hyne : is_empty pi y = false)
    (hlo : Contains pi I y.lo = false) (hhi : Contains pi I y.hi = false) :
    (ContainsInterval pi y I = true ∧ Union pi I y = y) ∨
    (Intersects pi I y = false ∧
      Union pi I y =
        if PositiveDistance pi y.hi I.lo < PositiveDistance pi I.hi y.lo
        then ⟨y.lo, I.hi⟩ else ⟨I.lo, y.hi⟩) := by
  have hflo := fastContains_false pi hpi I hI y.lo hlo
  have hfhi := fastContains_false pi hpi I hI y.hi hhi
  obtain ⟨a1, a2, a3, a4, a5, a6⟩ := (is_valid_iff pi I).mp hI
  obtain ⟨b1, b2, b3, b4, b5, b6⟩ := (is_valid_iff pi y).mp hy
  by_cases hIe : is_empty pi I = true
  · left
    refine ⟨?_, ?_⟩
    · rw [eq_empty_of_is_empty hIe]
      exact containsInterval_empty pi hpi y hy
    · simp [Union, hyne, hflo, hfhi, hIe]
  · simp only [Bool.not_eq_true] at hIe
    by_cases hyc : FastContains pi y I.lo = true
    · left
      refine ⟨?_, ?_⟩
      · by_cases hinvy : is_inverted y = true
        · have hy' := (is_inverted_iff y).mp hinvy
          by_cases hinvI : is_inverted I = true
          · have hI' := (is_inverted_iff I).mp hinvI
            have hflo' := Bool.eq_false_iff.mp hflo
            rw [Ne, fc_iff_inv hI' hIe] at hflo'
            push_neg at hflo'
            have hfhi' := Bool.eq_false_iff.mp hfhi
            rw [Ne, fc_iff_inv hI' hIe] at hfhi'
            push_neg at hfhi'
            simp only [ContainsInterval, hinvy, hinvI, if_true,
              Bool.and_eq_true, decide_eq_true_eq, ge_iff_le]
            exact ⟨le_of_lt hflo'.1, le_of_lt hfhi'.2⟩
          · simp only [Bool.not_eq_true] at hinvI
            have hI' := (is_inverted_false_iff I).mp hinvI
            rw [fc_iff_inv hy' hyne] at hyc
            have hfhi' := Bool.eq_false_iff.mp hfhi
            rw [Ne, fc_iff_ninv hI'] at hfhi'
            push_neg at hfhi'
            simp only [ContainsInterval, hinvy, hinvI, if_true,
              Bool.false_eq_true, if_false, hyne, Bool.not_false,
              Bool.and_true, Bool.or_eq_true, decide_eq_true_eq, ge_iff_le]
            rcases hyc with hcase | hcase
            · exact Or.inl hcase
            · exact Or.inr (le_of_lt (hfhi' hcase))
        · simp only [Bool.not_eq_true] at hinvy
          have hy' := (is_inverted_false_iff y).mp hinvy
          rw [fc_iff_ninv hy'] at hyc
          by_cases hinvI : is_inverted I = true
          · have hI' := (is_inverted_iff I).mp hinvI
            have hfhi' := Bool.eq_false_iff.mp hfhi
            rw [Ne, fc_iff_inv hI' hIe] at hfhi'
            push_neg at hfhi'
            exfalso
            linarith [hyc.2, hfhi'.1]
          · simp only [Bool.not_eq_true] at hinvI
            have hI' := (is_inverted_false_iff I).mp hinvI
            have hfhi' := Bool.eq_false_iff.mp hfhi
            rw [Ne, fc_iff_ninv hI'] at hfhi'
            push_neg at hfhi'
            simp only [ContainsInterval, hinvy, hinvI, Bool.false_eq_true,
              if_false, Bool.and_eq_true, decide_eq_true_eq, ge_iff_le]
            exact ⟨hyc.1, le_of_lt (hfhi' hyc.2)⟩
      · simp [Union, hyne, hflo, hfhi, hIe, hyc]
    · simp only [Bool.not_eq_true] at hyc
      right
      refine ⟨?_, ?_⟩
      · by_cases hinvI : is_inverted I = true
        · have hI' := (is_inverted_iff I).mp hinvI
          have hflo' := Bool.eq_false_iff.mp hflo
          rw [Ne, fc_iff_inv hI' hIe] at hflo'
          push_neg at hflo'
          have hfhi' := Bool.eq_false_iff.mp hfhi
          rw [Ne, fc_iff_inv hI' hIe] at hfhi'
          push_neg at hfhi'
          by_cases hinvy : is_inverted y = true
          · have hy' := (is_inverted_iff y).mp hinvy
            have hyc' := Bool.eq_false_iff.mp hyc
            rw [Ne, fc_iff_inv hy' hyne] at hyc'
            push_neg at hyc'
            exfalso
            linarith [hflo'.1, hyc'.1]
          · simp only [Bool.not_eq_true] at hinvy
            have h1' : ¬(y.lo ≤ I.hi) := not_le.mpr hflo'.2
            have h2' : ¬(I.lo ≤ y.hi) := not_le.mpr hfhi'.1
            simp [Intersects, hIe, hyne, hinvI, hinvy, h1', h2', ge_iff_le]
        · simp only [Bool.not_eq_true] at hinvI
          have hI' := (is_inverted_false_iff I).mp hinvI
          have hflo' := Bool.eq_false_iff.mp hflo
          rw [Ne, fc_iff_ninv hI'] at hflo'
          push_neg at hflo'
          have hfhi' := Bool.eq_false_iff.mp hfhi
          rw [Ne, fc_iff_ninv hI'] at hfhi'
          push_neg at hfhi'
          by_cases hinvy : is_inverted y = true
          · have hy' := (is_inverted_iff y).mp hinvy
            have hyc' := Bool.eq_false_iff.mp hyc
            rw [Ne, fc_iff_inv hy' hyne] at hyc'
            push_neg at hyc'
            have h1' : ¬(y.lo ≤ I.hi) := not_le.mpr (hflo' (le_of_lt hyc'.1))
            have h2' : ¬(I.lo ≤ y.hi) := not_le.mpr hyc'.2
            simp [Intersects, hIe, hyne, hinvI, hinvy, h1', h2', ge_iff_le]
          · simp only [Bool.not_eq_true] at hinvy
            have hy' := (is_inverted_false_iff y).mp hinvy
            have hyc' := Bool.eq_false_iff.mp hyc
            rw [Ne, fc_iff_ninv hy'] at hyc'
            push_neg at hyc'
            rcases le_or_lt y.lo I.lo with hcase | hcase
            · have h2' : ¬(I.lo ≤ y.hi) := not_le.mpr (hyc' hcase)
              simp [Intersects, hIe, hyne, hinvI, hinvy, h2', ge_iff_le]
            · have h1' : ¬(y.lo ≤ I.hi) := not_le.mpr (hflo' (le_of_lt hcase))
              simp [Intersects, hIe, hyne, hinvI, hinvy, h1', ge_iff_le]
      · simp [Union, hyne, hflo, hfhi, hIe, hyc]

/-- Witness for C3 at `pi = 4`: `I = [-1, 1]` and the inverted interval
`y = {2, -2}` (scenario 5 of the spec); the theorem's disjoint branch
applies, so the two arcs do not intersect. -/
theorem c3_witness :
    Intersects 4 ⟨-1, 1⟩ ⟨2, -2⟩ = false := by
  have h := c3_union_neither_endpoint 4 (by norm_num) ⟨-1, 1⟩ ⟨2, -2⟩
    (by decide) (by decide) (by decide) (by decide) (by decide)
  rcases h with ⟨hc, -⟩ | ⟨hd, -⟩
  · exact absurd hc (by decide)
  · exact hd

end S1Interval
